import Mathlib

/-!
Shallow embedding of the `digest` crate (traits repository): the trait layer
(`src/lib.rs`, `src/digest.rs`) and the development test harness
(`src/dev.rs`).

Bytes are modelled as `Nat` (the harness only moves bytes around; no
arithmetic overflows on bytes occur). Byte strings are `List Nat`.
Hasher types are modelled abstractly: a hasher implementation is a record of
a state type together with the operations the generic code under
verification actually calls, so every theorem quantifies over all
implementations, exactly like the Rust generics.
-/

namespace DigestSpec

/-! ## Trait layer: `src/lib.rs` and `src/digest.rs` -/

/-- Model of the `Input` trait: `fn process(&mut self, buf: &[u8])`,
as a state transformer. -/
structure InputImpl (S : Type) where
  process : S → List Nat → S

/-- Model of the `FixedOutput` trait (`Default` bound included):
`fixed_result(self)` consumes the hasher and returns the digest bytes. -/
structure FixedOutputImpl (S : Type) where
  default : S
  fixedResult : S → List Nat

/-- Model of the `VariableOutput` trait (`Default` bound included):
`variable_result(self, f)` hands the digest bytes to a closure; we model the
bytes that are passed to the closure. -/
structure VariableOutputImpl (S : Type) where
  default : S
  variableResult : S → List Nat

/-- `core::mem::swap(self, &mut other)`: afterwards `self` holds the old
`other` and `other` holds the old `self`. Result is `(new self, new other)`. -/
def memSwap {S : Type} (self other : S) : S × S := (other, self)

/-- Default body of `FixedOutput::fixed_result_reset` (src/lib.rs lines 46-50):
`let mut hasher = Default::default(); core::mem::swap(self, &mut hasher);
hasher.fixed_result()`. Returns the digest and the final state of `self`. -/
def fixedResultReset {S : Type} (impl : FixedOutputImpl S) (self : S) :
    List Nat × S :=
  let hasher := impl.default
  let sw := memSwap self hasher
  (impl.fixedResult sw.2, sw.1)

/-- Default body of `VariableOutput::variable_result_reset`
(src/lib.rs lines 73-77), same shape as `fixedResultReset`. -/
def variableResultReset {S : Type} (impl : VariableOutputImpl S) (self : S) :
    List Nat × S :=
  let hasher := impl.default
  let sw := memSwap self hasher
  (impl.variableResult sw.2, sw.1)

/-- Model of the capability set behind the blanket
`impl<D: Input + FixedOutput + Default> Digest for D` (src/digest.rs line 52). -/
structure DigestImpl (S : Type) where
  default : S
  process : S → List Nat → S
  fixedResult : S → List Nat

/-- `Digest::new()` (src/digest.rs lines 11-13): `Self::default()`. -/
def Digest.new {S : Type} (impl : DigestImpl S) : S := impl.default

/-- `Digest::input` (src/digest.rs lines 17-19): alias for `process`. -/
def Digest.input {S : Type} (impl : DigestImpl S) (s : S) (buf : List Nat) : S :=
  impl.process s buf

/-- `Digest::result` (src/digest.rs lines 22-24): `self.fixed_result()`. -/
def Digest.result {S : Type} (impl : DigestImpl S) (s : S) : List Nat :=
  impl.fixedResult s

/-- `Digest::digest(data)` (src/digest.rs lines 45-49):
`let mut hasher = Self::default(); hasher.input(data); hasher.fixed_result()`. -/
def Digest.digest {S : Type} (impl : DigestImpl S) (data : List Nat) : List Nat :=
  let hasher := impl.default
  let hasher2 := Digest.input impl hasher data
  impl.fixedResult hasher2

/-- The `std::io::Write::write` body generated by `impl_write`
(src/lib.rs lines 111-114): `self.process(buf); Ok(buf.len())`.
`std::io::Error` never occurs; the error type is modelled as `Unit`. -/
def ioWrite {S : Type} (impl : InputImpl S) (s : S) (buf : List Nat) :
    S × Except Unit Nat :=
  (impl.process s buf, Except.ok buf.length)

/-- The generated `std::io::Write::flush` body (src/lib.rs lines 116-118):
`Ok(())`, the hasher state untouched. -/
def ioFlush {S : Type} (s : S) : S × Except Unit Unit :=
  (s, Except.ok ())

/-! ## The recursive-halving feeding loop: `src/dev.rs` lines 64-71
(`digest_test`) and lines 112-119 (`xof_test`; textually the same loop,
calling `process` instead of `input`). The loop is

    let len = input.len();
    let mut left = len;
    while left > 0 {
        let take = (left + 1) / 2;
        hasher.input(&input[len - left..take + len - left]);
        left = left - take;
    }

We embed it generically over the processing function `proc`, which covers
both call sites. The recursion is driven by a fuel argument (initialised to
`left`, which bounds the iteration count because each iteration removes
`take ≥ 1` from `left`); `halvingChunksFuel_eq_spec` below shows the fuel
never runs out, i.e. the loop terminates for every input length. -/

/-- The sequence of slices the halving loop feeds, indexed the way the
source indexes: the remaining bytes are `input[len - left..]`. -/
def halvingChunksFuel (input : List Nat) : Nat → Nat → List (List Nat)
  | 0, _ => []
  | fuel + 1, left =>
    if left = 0 then []
    else
      ((input.drop (input.length - left)).take ((left + 1) / 2))
        :: halvingChunksFuel input fuel (left - (left + 1) / 2)

/-- The state transformer of the halving loop, same recursion. -/
def halvingLoopFuel {S : Type} (proc : S → List Nat → S) (input : List Nat) :
    Nat → Nat → S → S
  | 0, _, s => s
  | fuel + 1, left, s =>
    if left = 0 then s
    else
      halvingLoopFuel proc input fuel (left - (left + 1) / 2)
        (proc s ((input.drop (input.length - left)).take ((left + 1) / 2)))

/-- The chunks fed by the halving loop of `digest_test`/`xof_test`,
entered with `left = len = input.len()`. -/
def halvingChunks (input : List Nat) : List (List Nat) :=
  halvingChunksFuel input input.length input.length

/-- The halving loop of `digest_test`/`xof_test` as run by the harness. -/
def halvingLoop {S : Type} (proc : S → List Nat → S) (input : List Nat) (s : S) : S :=
  halvingLoopFuel proc input input.length input.length s

/-- Spec-side description of the halving strategy (spec §4.4 item 3):
repeatedly take `⌈len(remaining)/2⌉` bytes off the front of the remaining
bytes. For naturals `⌈n/2⌉ = (n + 1) / 2`. -/
def halvingSpec (rem : List Nat) : List (List Nat) :=
  if rem.isEmpty then []
  else
    rem.take ((rem.length + 1) / 2)
      :: halvingSpec (rem.drop ((rem.length + 1) / 2))
termination_by rem.length
decreasing_by
  rename_i h
  simp only [List.length_drop]
  have hne : rem ≠ [] := by
    intro hnil
    rw [hnil] at h
    simp at h
  have hpos : 0 < rem.length := List.length_pos.mpr hne
  omega

/-! ## The conformance harness: `src/dev.rs` -/

/-- Hasher interface as used by `digest_test` / `new_test`: the harness holds
one hasher behind `&mut` and repeatedly calls `input` (= `process`) and a
finalisation that yields the digest bytes. The source calls
`hasher.result()` on the shared `&mut` hasher and then keeps using the
hasher (its comment reads "Test if reset works correctly"), so finalisation
is modelled as returning the digest together with the successor state; what
that successor state is (reset or not) stays abstract, exactly as the
harness leaves it to the implementation. -/
structure DevHasher (S : Type) where
  default : S
  process : S → List Nat → S
  result : S → List Nat × S

/-- The four feeding strategies of `digest_test`, in source order, with the
exact failure descriptions the source returns. -/
inductive Strategy where
  | wholeMessage
  | wholeMessageAfterReset
  | messageInPieces
  | messageByteByByte
deriving DecidableEq

/-- The `&'static str` returned by `digest_test` for each failing strategy. -/
def Strategy.message : Strategy → String
  | Strategy.wholeMessage => ("whole message")
  | Strategy.wholeMessageAfterReset => ("whole message after reset")
  | Strategy.messageInPieces => ("message in pieces")
  | Strategy.messageByteByByte => ("message byte-by-byte")

/-- Strategy 4 (src/dev.rs lines 77-79): `for chunk in input.chunks(1)
{ hasher.input(chunk) }` — one single-byte chunk per element. -/
def byteFeed {S : Type} (proc : S → List Nat → S) (s : S) (input : List Nat) : S :=
  input.foldl (fun acc b => proc acc [b]) s

/-- `digest_test` (src/dev.rs lines 48-84). The source compares with `!=`
and early-returns `Some(desc)` at the first mismatching strategy; we mirror
this with nested `if`s (equal ⇒ continue, else ⇒ stop), and return the
mutated hasher state alongside the `Option` result (the Rust function
mutates the hasher through `&mut`). -/
def digestTest {S : Type} (impl : DevHasher S) (h : S) (input output : List Nat) :
    Option Strategy × S :=
  let r1 := impl.result (impl.process h input)
  if r1.1 = output then
    let r2 := impl.result (impl.process r1.2 input)
    if r2.1 = output then
      let r3 := impl.result (halvingLoop impl.process input r2.2)
      if r3.1 = output then
        let r4 := impl.result (byteFeed impl.process r3.2 input)
        if r4.1 = output then (none, r4.2)
        else (some Strategy.messageByteByByte, r4.2)
      else (some Strategy.messageInPieces, r3.2)
    else (some Strategy.wholeMessageAfterReset, r2.2)
  else (some Strategy.wholeMessage, r1.2)

/-- Hasher state at which strategy 3 (recursive halving) of `digest_test`
starts: the single shared hasher after strategies 1 and 2 (feed whole
message, finalise; feed whole message again, finalise). -/
def stateAtHalving {S : Type} (impl : DevHasher S) (h : S) (input : List Nat) : S :=
  (impl.result (impl.process (impl.result (impl.process h input)).2 input)).2

/-- Hasher state at which strategy 4 (byte-by-byte) of `digest_test` starts:
the same shared hasher after strategy 3 finalised. -/
def stateAtByteByByte {S : Type} (impl : DevHasher S) (h : S) (input : List Nat) : S :=
  (impl.result (halvingLoop impl.process input (stateAtHalving impl h input))).2

/-- Host byte order, for the `i.to_le()` conversion in `new_test`. -/
inductive Endian where
  | little
  | big
deriving DecidableEq

/-- The value the machine reads when it dereferences a `u16` pointer at two
consecutive bytes `b0, b1` (native byte order). This models the source's
`unsafe { *(chunk.as_ptr() as *const [[u16; 2]; 2]) }` load, value by value. -/
def nativeLoadU16 (e : Endian) (b0 b1 : Nat) : Nat :=
  match e with
  | Endian.little => b0 + 256 * b1
  | Endian.big => b1 + 256 * b0

/-- Byte swap of a 16-bit value. -/
def u16ByteSwap (v : Nat) : Nat := v / 256 + 256 * (v % 256)

/-- `u16::to_le(self)`: identity on a little-endian host, byte swap on a
big-endian host (src/dev.rs line 27, "convert to LE for BE machine"). -/
def toLe (e : Endian) (v : Nat) : Nat :=
  match e with
  | Endian.little => v
  | Endian.big => u16ByteSwap v

/-- One decoded `u16` field as `new_test` computes it: native load of the
two bytes, then `to_le()`. -/
def decodeField (e : Endian) (b0 b1 : Nat) : Nat := toLe e (nativeLoadU16 e b0 b1)

/-- Spec-side field decoding (spec §4.3 and §9): read the two bytes and
assemble the little-endian value directly, with no native load. -/
def decodeFieldByByte (b0 b1 : Nat) : Nat := b0 + 256 * b1

/-- The four offsets of one index record, in the field order of
`[[u16; 2]; 2]`: `idx[0][0], idx[0][1], idx[1][0], idx[1][1]`. -/
structure IndexRecord where
  inputStart : Nat
  inputEnd : Nat
  outputStart : Nat
  outputEnd : Nat
deriving DecidableEq

/-- Decode one 8-byte index chunk (src/dev.rs lines 22-28): the `[[u16;2];2]`
load followed by `to_le()` on every field. -/
def decodeRecord (e : Endian) (chunk : List Nat) : IndexRecord :=
  { inputStart := decodeField e (chunk.getD 0 0) (chunk.getD 1 0)
    inputEnd := decodeField e (chunk.getD 2 0) (chunk.getD 3 0)
    outputStart := decodeField e (chunk.getD 4 0) (chunk.getD 5 0)
    outputEnd := decodeField e (chunk.getD 6 0) (chunk.getD 7 0) }

/-- Rust slicing `xs[a..b]` for the in-range case (the harness claims are
about well-formed indices; Rust aborts on an out-of-range slice). -/
def sliceRange (xs : List Nat) (a b : Nat) : List Nat := (xs.drop a).take (b - a)

/-- Little-endian `u16` read at byte offset `j` of a buffer. -/
def leAt (l : List Nat) (j : Nat) : Nat := l.getD j 0 + 256 * l.getD (j + 1) 0

/-- `index.chunks(2*2*2)` (src/dev.rs line 20), fuel-driven structural
recursion (fuel = list length suffices: every step consumes at least one
element). A short final chunk is kept, as `slice::chunks` keeps it. -/
def chunks8Fuel : Nat → List Nat → List (List Nat)
  | 0, _ => []
  | _, [] => []
  | fuel + 1, l => l.take 8 :: chunks8Fuel fuel (l.drop 8)

/-- `index.chunks(8)` as a function of the index buffer. -/
def chunks8 (l : List Nat) : List (List Nat) := chunks8Fuel l.length l

/-- All the data interpolated into the `panic!` format string of `new_test`
(src/dev.rs lines 33-40): test number, strategy description, input range and
bytes, output range and bytes. -/
structure PanicInfo where
  testNo : Nat
  desc : Strategy
  inStart : Nat
  inEnd : Nat
  inputBytes : List Nat
  outStart : Nat
  outEnd : Nat
  outputBytes : List Nat
deriving DecidableEq

/-- Outcome of one generated `new_test` test function: the setup
`assert_eq!(index.len() % (2*2*2), 0)` failure, a `panic!` on the first
failing vector, or normal completion. -/
inductive HarnessResult where
  | malformedIndex
  | vectorFailure (info : PanicInfo)
  | ok
deriving DecidableEq

/-- The test-vector input derived from one record:
`&inputs[(idx[0][0] as usize)..(idx[0][1] as usize)]` (src/dev.rs line 29). -/
def recordInput (e : Endian) (inputs : List Nat) (chunk : List Nat) : List Nat :=
  sliceRange inputs (decodeRecord e chunk).inputStart (decodeRecord e chunk).inputEnd

/-- The expected output derived from one record:
`&outputs[(idx[1][0] as usize)..(idx[1][1] as usize)]` (src/dev.rs lines 30-31). -/
def recordOutput (e : Endian) (outputs : List Nat) (chunk : List Nat) : List Nat :=
  sliceRange outputs (decodeRecord e chunk).outputStart (decodeRecord e chunk).outputEnd

/-- The record loop of `new_test` (src/dev.rs lines 20-42): decode each
8-byte chunk, slice the input and expected output, run `$test_func`
(`digest_test`), and `panic!` with the full diagnostic on the first failure,
which ends the loop. The single hasher is threaded through all records. -/
def runRecords {S : Type} (impl : DevHasher S) (e : Endian)
    (inputs outputs : List Nat) : List (List Nat) → Nat → S → HarnessResult
  | [], _, _ => HarnessResult.ok
  | chunk :: rest, i, h =>
    match digestTest impl h (recordInput e inputs chunk) (recordOutput e outputs chunk) with
    | (some d, _) =>
        HarnessResult.vectorFailure
          { testNo := i, desc := d
            inStart := (decodeRecord e chunk).inputStart
            inEnd := (decodeRecord e chunk).inputEnd
            inputBytes := recordInput e inputs chunk
            outStart := (decodeRecord e chunk).outputStart
            outEnd := (decodeRecord e chunk).outputEnd
            outputBytes := recordOutput e outputs chunk }
    | (none, h2) => runRecords impl e inputs outputs rest (i + 1) h2

/-- How many records the loop of `runRecords` examines before it stops
(all of them when no vector fails; the failing record is the last one
examined otherwise). -/
def countProcessed {S : Type} (impl : DevHasher S) (e : Endian)
    (inputs outputs : List Nat) : List (List Nat) → S → Nat
  | [], _ => 0
  | chunk :: rest, h =>
    match digestTest impl h (recordInput e inputs chunk) (recordOutput e outputs chunk) with
    | (some _, _) => 1
    | (none, h2) => 1 + countProcessed impl e inputs outputs rest h2

/-- A whole generated test function (src/dev.rs lines 8-44): length check
first, then the record loop starting from a default-constructed hasher
(line 19, created once, before the loop). -/
def newTestRun {S : Type} (impl : DevHasher S) (e : Endian)
    (index inputs outputs : List Nat) : HarnessResult :=
  if index.length % 8 = 0 then
    runRecords impl e inputs outputs (chunks8 index) 0 impl.default
  else HarnessResult.malformedIndex

/-- Records examined by a whole test function run (0 when the length check
fires: the `assert_eq!` aborts before any record is decoded). -/
def newTestProcessed {S : Type} (impl : DevHasher S) (e : Endian)
    (index inputs outputs : List Nat) : Nat :=
  if index.length % 8 = 0 then
    countProcessed impl e inputs outputs (chunks8 index) impl.default
  else 0

/-- `one_million_a` (src/dev.rs lines 291-301): 50 000 `input` calls of ten
`b'a'` (= 97) bytes, one `input` call of 500 000 such bytes, then compare
`sh.result()` against the expected digest. Modelled over `DigestImpl`
because the helper constructs its own hasher and finalises it once. -/
def oneMillionA {S : Type} (impl : DigestImpl S) (expected : List Nat) : Bool :=
  let sh := impl.default
  let sh2 := (List.range 50000).foldl
    (fun acc _ => impl.process acc (List.replicate 10 97)) sh
  let sh3 := impl.process sh2 (List.replicate 500000 97)
  let out := impl.fixedResult sh3
  decide (out = expected)

/-- The chunk sequence `one_million_a` feeds: 50 000 chunks of ten 97-bytes,
then one chunk of 500 000. -/
def oneMillionAChunks : List (List Nat) :=
  List.replicate 50000 (List.replicate 10 97) ++ [List.replicate 500000 97]

/-! ## Concrete hasher implementations used as evaluation witnesses -/

/-- A transparent hasher: the state is the bytes accumulated since the last
finalisation, the digest is those bytes, and finalisation resets the state.
All four `digest_test` strategies produce the input itself, so a vector
passes exactly when `expected_output = input`. -/
def listHasher : DevHasher (List Nat) :=
  { default := []
    process := fun s b => s ++ b
    result := fun s => (s, []) }

/-- Like `listHasher` but with a finalisation counter that is never reset:
finalisation clears the byte buffer (so every strategy still produces the
right digest) yet leaves the state observably different from
`default = ([], 0)`. -/
def countingHasher : DevHasher (List Nat × Nat) :=
  { default := ([], 0)
    process := fun s b => (s.1 ++ b, s.2)
    result := fun s => (s.1, ([], s.2 + 1)) }

/-- Two-record index whose first record (input `[0..1)`, output `[0..1)`)
mismatches under `listHasher` with inputs `[3]`, outputs `[4]`. -/
def c2idx : List Nat := [0, 0, 1, 0, 0, 0, 1, 0, 0, 0, 1, 0, 0, 0, 1, 0]

def c2inp : List Nat := [3]

def c2out : List Nat := [4]

/-- Same shape as `c2idx`, distinct data, for the C5 counterexample. -/
def c5idx : List Nat := [0, 0, 1, 0, 0, 0, 1, 0, 0, 0, 1, 0, 0, 0, 1, 0]

def c5inp : List Nat := [5]

def c5out : List Nat := [6]

/-- A 9-byte (malformed) index buffer. -/
def c5badIdx : List Nat := [0, 0, 0, 0, 0, 0, 0, 0, 0]

/-- An 8-byte index with one empty-range record: passes under `listHasher`. -/
def c5okIdx : List Nat := [0, 0, 0, 0, 0, 0, 0, 0]

/-- One record `(1, 2, 3, 4)` in little-endian bytes. -/
def c7idx : List Nat := [1, 0, 2, 0, 3, 0, 4, 0]

/-! ## Helper lemmas -/

theorem halvingSpec_nil : halvingSpec [] = [] := by
  rw [halvingSpec]
  simp

theorem halvingSpec_of_ne_nil (rem : List Nat) (h : rem ≠ []) :
    halvingSpec rem
      = rem.take ((rem.length + 1) / 2)
        :: halvingSpec (rem.drop ((rem.length + 1) / 2)) := by
  rw [halvingSpec]
  rw [if_neg (by simp [h])]

theorem halvingSpec_flatten (rem : List Nat) : (halvingSpec rem).flatten = rem := by
  suffices key : ∀ (n : Nat) (l : List Nat), l.length = n → (halvingSpec l).flatten = l by
    exact key rem.length rem rfl
  intro n
  induction n using Nat.strong_induction_on with
  | _ n ih =>
    intro l hn
    by_cases h : l = []
    · rw [h, halvingSpec_nil]
      rfl
    · rw [halvingSpec_of_ne_nil l h, List.flatten_cons]
      have hpos : 0 < l.length := List.length_pos.mpr h
      have hlt : (l.drop ((l.length + 1) / 2)).length < n := by
        simp only [List.length_drop]
        omega
      rw [ih _ hlt _ rfl, List.take_append_drop]

theorem halvingChunksFuel_eq_spec (input : List Nat) :
    ∀ (fuel left : Nat), left ≤ fuel → left ≤ input.length →
      halvingChunksFuel input fuel left
        = halvingSpec (input.drop (input.length - left)) := by
  intro fuel
  induction fuel with
  | zero =>
    intro left h1 _
    have h0 : left = 0 := Nat.le_zero.mp h1
    subst h0
    rw [halvingChunksFuel, Nat.sub_zero, List.drop_length, halvingSpec_nil]
  | succ n ih =>
    intro left h1 h2
    by_cases h0 : left = 0
    · subst h0
      rw [halvingChunksFuel, if_pos rfl, Nat.sub_zero, List.drop_length,
        halvingSpec_nil]
    · rw [halvingChunksFuel, if_neg h0]
      have hrem : (input.drop (input.length - left)).length = left := by
        rw [List.length_drop]
        omega
      have hne : input.drop (input.length - left) ≠ [] := by
        intro hnil
        rw [hnil] at hrem
        simp only [List.length_nil] at hrem
        omega
      rw [halvingSpec_of_ne_nil _ hne, hrem, List.drop_drop]
      have harith : input.length - left + (left + 1) / 2
          = input.length - (left - (left + 1) / 2) := by omega
      rw [harith]
      rw [ih (left - (left + 1) / 2) (by omega) (by omega)]

theorem halvingLoopFuel_eq_foldl {S : Type} (proc : S → List Nat → S)
    (input : List Nat) :
    ∀ (fuel left : Nat) (s : S),
      halvingLoopFuel proc input fuel left s
        = (halvingChunksFuel input fuel left).foldl proc s := by
  intro fuel
  induction fuel with
  | zero =>
    intro left s
    rfl
  | succ n ih =>
    intro left s
    by_cases h0 : left = 0
    · subst h0
      rw [halvingLoopFuel, halvingChunksFuel, if_pos rfl, if_pos rfl]
      rfl
    · rw [halvingLoopFuel, halvingChunksFuel, if_neg h0, if_neg h0,
        List.foldl_cons]
      exact ih _ _

/-! ## C1: the recursive-halving feeding strategy -/

/-- C1. In the halving loop of `digest_test` and `xof_test`, the fed chunks
are exactly the spec's front-taking halving sequence (`take = ⌈remaining/2⌉`
off the front of the remaining bytes, shrinking by `take`); the loop is total
(the embedding is a total function whose fuel, shown sufficient, is the
source's decreasing counter `left`); the concatenation of the fed chunks is
the original input; and the hasher receives precisely these chunks in order.
The final conjunct records that `(n + 1) / 2` is exactly `⌈n / 2⌉`. -/
theorem halving_feed_correct (input : List Nat) :
    halvingChunks input = halvingSpec input
    ∧ (halvingChunks input).flatten = input
    ∧ (∀ (S : Type) (proc : S → List Nat → S) (s : S),
        halvingLoop proc input s = (halvingChunks input).foldl proc s)
    ∧ (∀ (n : Nat), n ≤ 2 * ((n + 1) / 2) ∧ 2 * ((n + 1) / 2) ≤ n + 1) := by
  have hchunks : halvingChunks input = halvingSpec input := by
    rw [halvingChunks,
      halvingChunksFuel_eq_spec input input.length input.length le_rfl le_rfl,
      Nat.sub_self, List.drop_zero]
  refine ⟨hchunks, ?_, ?_, ?_⟩
  · rw [hchunks, halvingSpec_flatten]
  · intro S proc s
    rw [halvingLoop, halvingChunks, halvingLoopFuel_eq_foldl]
  · intro n
    omega

/-! ## C3, C6, C10: trait-layer theorems -/

/-- C3. The default `fixed_result_reset` returns exactly the finalisation of
the pre-call state and leaves the hasher equal to a freshly
default-constructed instance; likewise `variable_result_reset`. -/
theorem result_reset_correct {S T : Type} (fimpl : FixedOutputImpl S) (s : S)
    (vimpl : VariableOutputImpl T) (t : T) :
    fixedResultReset fimpl s = (fimpl.fixedResult s, fimpl.default)
    ∧ variableResultReset vimpl t = (vimpl.variableResult t, vimpl.default) :=
  ⟨rfl, rfl⟩

/-- C6. The one-shot `Digest::digest(data)` equals default-construction,
one `input(data)` call, then `fixed_result` (and `input` is `process`). -/
theorem digest_one_shot {S : Type} (impl : DigestImpl S) (data : List Nat) :
    Digest.digest impl data
      = Digest.result impl (Digest.input impl (Digest.new impl) data)
    ∧ Digest.input impl (Digest.new impl) data = impl.process impl.default data :=
  ⟨rfl, rfl⟩

/-- C10. The generated `std::io::Write` impl never fails: `write` applies
`process` to the whole buffer exactly once and returns `Ok(buf.len())`, and
`flush` returns `Ok(())` leaving the state unchanged. -/
theorem impl_write_never_fails {S : Type} (impl : InputImpl S) (s : S)
    (buf : List Nat) :
    ioWrite impl s buf = (impl.process s buf, Except.ok buf.length)
    ∧ ioFlush s = (s, Except.ok ()) :=
  ⟨rfl, rfl⟩

/-! ## C4: index-field decoding and host byte order -/

theorem decodeField_eq_le (e : Endian) (b0 b1 : Nat) (hb0 : b0 < 256)
    (hb1 : b1 < 256) : decodeField e b0 b1 = b0 + 256 * b1 := by
  cases e
  · rfl
  · simp only [decodeField, toLe, nativeLoadU16, u16ByteSwap]
    omega

/-- C4 (value level). The decoded field value equals the little-endian
interpretation of the two record bytes on both a little-endian and a
big-endian host (`to_le()` corrects the native load), and coincides with the
spec's byte-by-byte little-endian assembly. The alignment aspect of the
claim lives outside this embedding: the source performs the load as a raw
pointer cast that its own comment says assumes alignment. -/
theorem index_decode_endian_independent (e : Endian) (b0 b1 : Nat)
    (hb0 : b0 < 256) (hb1 : b1 < 256) :
    decodeField e b0 b1 = decodeFieldByByte b0 b1
    ∧ decodeField e b0 b1 = decodeField Endian.little b0 b1 := by
  constructor
  · rw [decodeField_eq_le e b0 b1 hb0 hb1]
    rfl
  · rw [decodeField_eq_le e b0 b1 hb0 hb1,
      decodeField_eq_le Endian.little b0 b1 hb0 hb1]

/-- Witness for `index_decode_endian_independent` at bytes `(1, 2)` on a
big-endian host: the decoded value is `1 + 256 * 2 = 513` either way. -/
theorem index_decode_endian_independent_witness :
    decodeField Endian.big 1 2 = decodeFieldByByte 1 2
    ∧ decodeField Endian.big 1 2 = decodeField Endian.little 1 2 :=
  index_decode_endian_independent Endian.big 1 2 (by decide) (by decide)

/-! ## C7: record layout -/

theorem chunks8Fuel_cons (fuel : Nat) (a : Nat) (rest : List Nat) :
    chunks8Fuel (fuel + 1) (a :: rest)
      = (a :: rest).take 8 :: chunks8Fuel fuel ((a :: rest).drop 8) := rfl

theorem chunks8Fuel_getD (fuel : Nat) :
    ∀ (l : List Nat) (i : Nat), l.length ≤ fuel → 8 * i + 8 ≤ l.length →
      (chunks8Fuel fuel l).getD i [] = (l.drop (8 * i)).take 8 := by
  induction fuel with
  | zero =>
    intro l i h1 h2
    omega
  | succ n ih =>
    intro l i h1 h2
    match l with
    | [] =>
      simp only [List.length_nil] at h2
      omega
    | a :: rest =>
      rw [chunks8Fuel_cons]
      match i with
      | 0 =>
        rw [List.getD_cons_zero, Nat.mul_zero, List.drop_zero]
      | i + 1 =>
        rw [List.getD_cons_succ, ih ((a :: rest).drop 8) i
            (by simp only [List.length_drop]; omega)
            (by simp only [List.length_drop]; omega),
          List.drop_drop]
        have harith : 8 + 8 * i = 8 * (i + 1) := by omega
        rw [harith]

theorem chunks8Fuel_length (fuel : Nat) :
    ∀ (l : List Nat), l.length ≤ fuel → l.length % 8 = 0 →
      (chunks8Fuel fuel l).length = l.length / 8 := by
  induction fuel with
  | zero =>
    intro l h1 _
    have h0 : l.length = 0 := by omega
    rw [chunks8Fuel, List.length_nil, h0]
  | succ n ih =>
    intro l h1 h8
    match l with
    | [] => rfl
    | a :: rest =>
      have hdrop : ((a :: rest).drop 8).length = rest.length + 1 - 8 := by
        rw [List.length_drop, List.length_cons]
      simp only [List.length_cons] at h1 h8
      rw [chunks8Fuel_cons, List.length_cons,
        ih ((a :: rest).drop 8) (by omega) (by omega), hdrop]
      simp only [List.length_cons]
      omega

theorem getD_lt_256 (l : List Nat) (hbytes : ∀ b ∈ l, b < 256) (j : Nat) :
    l.getD j 0 < 256 := by
  by_cases hj : j < l.length
  · rw [List.getD_eq_getElem _ _ hj]
    exact hbytes _ (List.getElem_mem hj)
  · rw [List.getD_eq_default _ _ (by omega)]
    omega

theorem drop_take_getD (l : List Nat) (a k : Nat) (h : a + 8 ≤ l.length)
    (hk : k < 8) : ((l.drop a).take 8).getD k 0 = l.getD (a + k) 0 := by
  have h1 : k < ((l.drop a).take 8).length := by
    simp only [List.length_take, List.length_drop]
    omega
  rw [List.getD_eq_getElem _ _ h1,
    List.getD_eq_getElem _ _ (by omega : a + k < l.length)]
  simp only [List.getElem_take, List.getElem_drop]

/-- C7. For a well-formed index, record `i` is the 8-byte slice at offset
`8 * i`; its four fields decode as little-endian `u16` values in the fixed
order `(input_start, input_end, output_start, output_end)` on either host;
and `sliceRange` (the model of `buf[a..b]`, which derives the test vector
from the decoded offsets in `runRecords`) is the half-open range `[a, b)`. -/
theorem record_decode_layout (e : Endian) (index : List Nat) (i : Nat)
    (hrange : 8 * i + 8 ≤ index.length)
    (hbytes : ∀ b ∈ index, b < 256) :
    (chunks8 index).getD i [] = (index.drop (8 * i)).take 8
    ∧ decodeRecord e ((chunks8 index).getD i [])
        = { inputStart := leAt index (8 * i)
            inputEnd := leAt index (8 * i + 2)
            outputStart := leAt index (8 * i + 4)
            outputEnd := leAt index (8 * i + 6) }
    ∧ (∀ (xs : List Nat) (a b : Nat), a ≤ b → b ≤ xs.length →
        (sliceRange xs a b).length = b - a
        ∧ ∀ j, j < b - a → (sliceRange xs a b).getD j 0 = xs.getD (a + j) 0) := by
  have hchunk : (chunks8 index).getD i [] = (index.drop (8 * i)).take 8 :=
    chunks8Fuel_getD index.length index i le_rfl hrange
  refine ⟨hchunk, ?_, ?_⟩
  · have hfield : ∀ k, k < 8 →
        ((chunks8 index).getD i []).getD k 0 = index.getD (8 * i + k) 0 := by
      intro k hk
      rw [hchunk, drop_take_getD index (8 * i) k (by omega) hk]
    have hb : ∀ j, index.getD j 0 < 256 := getD_lt_256 index hbytes
    simp only [decodeRecord, IndexRecord.mk.injEq, leAt]
    rw [hfield 0 (by omega), hfield 1 (by omega), hfield 2 (by omega),
      hfield 3 (by omega), hfield 4 (by omega), hfield 5 (by omega),
      hfield 6 (by omega), hfield 7 (by omega)]
    rw [decodeField_eq_le e _ _ (hb _) (hb _),
      decodeField_eq_le e _ _ (hb _) (hb _),
      decodeField_eq_le e _ _ (hb _) (hb _),
      decodeField_eq_le e _ _ (hb _) (hb _)]
    refine ⟨rfl, ?_, ?_, ?_⟩ <;> norm_num
  · intro xs a b hab hb
    have hlen : (sliceRange xs a b).length = b - a := by
      simp only [sliceRange, List.length_take, List.length_drop]
      omega
    refine ⟨hlen, ?_⟩
    intro j hj
    have h1 : j < (sliceRange xs a b).length := by omega
    rw [List.getD_eq_getElem _ _ h1,
      List.getD_eq_getElem _ _ (by omega : a + j < xs.length)]
    simp only [sliceRange, List.getElem_take, List.getElem_drop]

/-- Witness for `record_decode_layout`: the single record of `c7idx` decodes
to offsets `(1, 2, 3, 4)`. -/
theorem record_decode_layout_witness :
    decodeRecord Endian.little ((chunks8 c7idx).getD 0 [])
      = { inputStart := 1, inputEnd := 2, outputStart := 3, outputEnd := 4 } :=
  ((record_decode_layout Endian.little c7idx 0 (by decide)
    (by decide)).2.1).trans (by decide)

/-! ## C2, C5: harness failure policy -/

theorem runRecords_ne_malformed {S : Type} (impl : DevHasher S) (e : Endian)
    (inputs outputs : List Nat) :
    ∀ (chunks : List (List Nat)) (i : Nat) (h : S),
      runRecords impl e inputs outputs chunks i h ≠ HarnessResult.malformedIndex := by
  intro chunks
  induction chunks with
  | nil =>
    intro i h hrun
    simp [runRecords] at hrun
  | cons chunk rest ih =>
    intro i h hrun
    rw [runRecords] at hrun
    rcases hdt : digestTest impl h (recordInput e inputs chunk)
        (recordOutput e outputs chunk) with ⟨od, h2⟩
    rw [hdt] at hrun
    cases od with
    | some d => simp at hrun
    | none => exact ih (i + 1) h2 hrun

theorem runRecords_ok_count {S : Type} (impl : DevHasher S) (e : Endian)
    (inputs outputs : List Nat) :
    ∀ (chunks : List (List Nat)) (i : Nat) (h : S),
      runRecords impl e inputs outputs chunks i h = HarnessResult.ok →
      countProcessed impl e inputs outputs chunks h = chunks.length := by
  intro chunks
  induction chunks with
  | nil =>
    intro i h _
    rfl
  | cons chunk rest ih =>
    intro i h hrun
    rw [runRecords] at hrun
    rw [countProcessed, List.length_cons]
    rcases hdt : digestTest impl h (recordInput e inputs chunk)
        (recordOutput e outputs chunk) with ⟨od, h2⟩
    rw [hdt] at hrun
    cases od with
    | some d => simp at hrun
    | none =>
      show 1 + countProcessed impl e inputs outputs rest h2 = rest.length + 1
      rw [ih (i + 1) h2 hrun]
      omega

theorem runRecords_failure {S : Type} (impl : DevHasher S) (e : Endian)
    (inputs outputs : List Nat) :
    ∀ (chunks : List (List Nat)) (i : Nat) (h : S) (info : PanicInfo),
      runRecords impl e inputs outputs chunks i h = HarnessResult.vectorFailure info →
      i ≤ info.testNo
      ∧ countProcessed impl e inputs outputs chunks h = info.testNo + 1 - i
      ∧ info.inputBytes = sliceRange inputs info.inStart info.inEnd
      ∧ info.outputBytes = sliceRange outputs info.outStart info.outEnd
      ∧ ∃ chunk, chunk ∈ chunks
          ∧ decodeRecord e chunk
            = { inputStart := info.inStart, inputEnd := info.inEnd
                outputStart := info.outStart, outputEnd := info.outEnd } := by
  intro chunks
  induction chunks with
  | nil =>
    intro i h info hrun
    simp [runRecords] at hrun
  | cons chunk rest ih =>
    intro i h info hrun
    rw [runRecords] at hrun
    rw [countProcessed]
    rcases hdt : digestTest impl h (recordInput e inputs chunk)
        (recordOutput e outputs chunk) with ⟨od, h2⟩
    rw [hdt] at hrun
    cases od with
    | some d =>
      simp only [HarnessResult.vectorFailure.injEq] at hrun
      subst hrun
      refine ⟨le_rfl, ?_, rfl, rfl, chunk, List.mem_cons_self chunk rest, rfl⟩
      show (1 : Nat) = i + 1 - i
      omega
    | none =>
      obtain ⟨hle, hcount, hin, hout, c, hc, hdec⟩ := ih (i + 1) h2 info hrun
      refine ⟨by omega, ?_, hin, hout, c, List.mem_cons_of_mem chunk hc, hdec⟩
      show 1 + countProcessed impl e inputs outputs rest h2 = info.testNo + 1 - i
      omega

/-- C2 counterexample data check: under `listHasher`, `c2idx` (two records)
fails at record 0, and the harness stops there — record 1 is never examined,
refuting "the harness still processes every subsequent record". -/
theorem c2_counterexample :
    (∃ info, newTestRun listHasher Endian.little c2idx c2inp c2out
        = HarnessResult.vectorFailure info ∧ info.testNo = 0)
    ∧ newTestProcessed listHasher Endian.little c2idx c2inp c2out = 1
    ∧ c2idx.length / 8 = 2 := by
  refine ⟨⟨{ testNo := 0, desc := Strategy.wholeMessage
             inStart := 0, inEnd := 1, inputBytes := [3]
             outStart := 0, outEnd := 1, outputBytes := [4] }, ?_, rfl⟩, ?_, ?_⟩
  · decide
  · decide
  · decide

/-- C2 (amended). With a well-formed index: when the run succeeds every
record was processed; when it fails, the panic reports the failing record's
index, its strategy, and byte ranges with the raw bytes sliced by exactly
those ranges, the range fields come from a decoded record of the index, the
records before the failing one were fully processed — and processing stopped
with the failing record (`testNo + 1` records examined, not all of them). -/
theorem c2_failure_policy {S : Type} (impl : DevHasher S) (e : Endian)
    (index inputs outputs : List Nat) (h8 : index.length % 8 = 0) :
    (newTestRun impl e index inputs outputs = HarnessResult.ok →
      newTestProcessed impl e index inputs outputs = index.length / 8)
    ∧ (∀ info,
        newTestRun impl e index inputs outputs = HarnessResult.vectorFailure info →
        newTestProcessed impl e index inputs outputs = info.testNo + 1
        ∧ info.inputBytes = sliceRange inputs info.inStart info.inEnd
        ∧ info.outputBytes = sliceRange outputs info.outStart info.outEnd
        ∧ ∃ chunk, chunk ∈ chunks8 index
            ∧ decodeRecord e chunk
              = { inputStart := info.inStart, inputEnd := info.inEnd
                  outputStart := info.outStart, outputEnd := info.outEnd }) := by
  constructor
  · intro hrun
    rw [newTestRun, if_pos h8] at hrun
    rw [newTestProcessed, if_pos h8,
      runRecords_ok_count impl e inputs outputs (chunks8 index) 0 impl.default hrun,
      chunks8, chunks8Fuel_length index.length index le_rfl h8]
  · intro info hrun
    rw [newTestRun, if_pos h8] at hrun
    obtain ⟨_, hcount, hin, hout, hex⟩ :=
      runRecords_failure impl e inputs outputs (chunks8 index) 0 impl.default info hrun
    rw [newTestProcessed, if_pos h8, hcount]
    exact ⟨by omega, hin, hout, hex⟩

/-- Witness for `c2_failure_policy` on the concrete failing run of
`c2_counterexample`'s data. -/
theorem c2_failure_policy_witness :
    (newTestRun listHasher Endian.little c2idx c2inp c2out = HarnessResult.ok →
      newTestProcessed listHasher Endian.little c2idx c2inp c2out = c2idx.length / 8)
    ∧ (∀ info,
        newTestRun listHasher Endian.little c2idx c2inp c2out
          = HarnessResult.vectorFailure info →
        newTestProcessed listHasher Endian.little c2idx c2inp c2out = info.testNo + 1
        ∧ info.inputBytes = sliceRange c2inp info.inStart info.inEnd
        ∧ info.outputBytes = sliceRange c2out info.outStart info.outEnd
        ∧ ∃ chunk, chunk ∈ chunks8 c2idx
            ∧ decodeRecord Endian.little chunk
              = { inputStart := info.inStart, inputEnd := info.inEnd
                  outputStart := info.outStart, outputEnd := info.outEnd }) :=
  c2_failure_policy listHasher Endian.little c2idx c2inp c2out (by decide)

/-- C5 counterexample: a two-record index of well-formed length whose first
vector fails; only 1 of the `length / 8 = 2` records is processed, refuting
the unconditional "all length/8 records are processed". -/
theorem c5_counterexample :
    c5idx.length % 8 = 0
    ∧ ¬ (newTestProcessed listHasher Endian.little c5idx c5inp c5out
          = c5idx.length / 8) := by
  constructor
  · decide
  · decide

/-- C5 (amended). A non-multiple-of-8 index length is a fatal setup error
before any record is decoded (zero records processed); with a
multiple-of-8 length the setup error never occurs, and when additionally no
vector fails, all `length / 8` records are processed. -/
theorem c5_malformed_index {S : Type} (impl : DevHasher S) (e : Endian)
    (index inputs outputs : List Nat) :
    (index.length % 8 ≠ 0 →
      newTestRun impl e index inputs outputs = HarnessResult.malformedIndex
      ∧ newTestProcessed impl e index inputs outputs = 0)
    ∧ (index.length % 8 = 0 →
      newTestRun impl e index inputs outputs ≠ HarnessResult.malformedIndex
      ∧ (newTestRun impl e index inputs outputs = HarnessResult.ok →
          newTestProcessed impl e index inputs outputs = index.length / 8)) := by
  constructor
  · intro h8
    rw [newTestRun, newTestProcessed, if_neg h8, if_neg h8]
    exact ⟨rfl, rfl⟩
  · intro h8
    constructor
    · rw [newTestRun, if_pos h8]
      exact runRecords_ne_malformed impl e inputs outputs (chunks8 index) 0 impl.default
    · intro hrun
      rw [newTestRun, if_pos h8] at hrun
      rw [newTestProcessed, if_pos h8,
        runRecords_ok_count impl e inputs outputs (chunks8 index) 0 impl.default hrun,
        chunks8, chunks8Fuel_length index.length index le_rfl h8]

/-- Witness for `c5_malformed_index`: a 9-byte index is rejected as
malformed with nothing processed, and an 8-byte index is not. -/
theorem c5_malformed_index_witness :
    (newTestRun listHasher Endian.little c5badIdx c5inp c5out
        = HarnessResult.malformedIndex
      ∧ newTestProcessed listHasher Endian.little c5badIdx c5inp c5out = 0)
    ∧ (newTestRun listHasher Endian.little c5okIdx c5inp c5out
        ≠ HarnessResult.malformedIndex
      ∧ (newTestRun listHasher Endian.little c5okIdx c5inp c5out = HarnessResult.ok →
          newTestProcessed listHasher Endian.little c5okIdx c5inp c5out
            = c5okIdx.length / 8)) :=
  ⟨(c5_malformed_index listHasher Endian.little c5badIdx c5inp c5out).1 (by decide),
   (c5_malformed_index listHasher Endian.little c5okIdx c5inp c5out).2 (by decide)⟩

/-! ## C8: the stress helper -/

theorem foldl_range_eq_foldl_replicate {S A : Type} (f : S → A → S) (c : A) :
    ∀ (n : Nat) (s : S),
      (List.range n).foldl (fun acc _ => f acc c) s
        = (List.replicate n c).foldl f s := by
  intro n
  induction n with
  | zero =>
    intro s
    rfl
  | succ m ih =>
    intro s
    rw [List.range_succ, List.foldl_append, List.replicate_succ',
      List.foldl_append]
    simp only [List.foldl_cons, List.foldl_nil]
    rw [ih s]

theorem oneMillionAChunks_flatten_length :
    oneMillionAChunks.flatten.length = 1000000 := by
  rw [oneMillionAChunks]
  simp only [List.flatten_append, List.length_append, List.length_flatten,
    List.map_replicate, List.length_replicate, List.sum_replicate,
    smul_eq_mul, List.flatten_cons, List.flatten_nil, List.append_nil,
    List.map_cons, List.map_nil, List.sum_cons, List.sum_nil]

/-- C8 counterexample: the total number of bytes the stress helper feeds is
not 500 010 (it is 1 000 000 — the helper is `one_million_a`). -/
theorem c8_counterexample : oneMillionAChunks.flatten.length ≠ 500010 := by
  rw [oneMillionAChunks_flatten_length]
  omega

/-- C8 (amended). `one_million_a` compares the fixed digest of exactly the
chunk sequence "50 000 chunks of ten `b'a'` (= 97) bytes, then one chunk of
500 000" — 50 001 `input` calls, 1 000 000 bytes in total — against the
caller-supplied expected digest. -/
theorem one_million_a_structure {S : Type} (impl : DigestImpl S)
    (expected : List Nat) :
    (oneMillionA impl expected = true ↔
      impl.fixedResult (oneMillionAChunks.foldl impl.process impl.default)
        = expected)
    ∧ oneMillionAChunks
        = List.replicate 50000 (List.replicate 10 97)
          ++ [List.replicate 500000 97]
    ∧ oneMillionAChunks.flatten.length = 1000000
    ∧ oneMillionAChunks.length = 50001 := by
  refine ⟨?_, rfl, oneMillionAChunks_flatten_length, ?_⟩
  · simp only [oneMillionA, decide_eq_true_eq, oneMillionAChunks,
      List.foldl_append, List.foldl_cons, List.foldl_nil]
    rw [foldl_range_eq_foldl_replicate impl.process (List.replicate 10 97)
      50000 impl.default]
  · rw [oneMillionAChunks, List.length_append, List.length_replicate,
      List.length_singleton]

/-! ## C9: instance sharing across the four strategies -/

/-- C9 counterexample: a hasher whose finalisation yields correct digests
but does not restore the default state. All four strategies of
`digest_test` pass (`none` returned), yet strategies 3 and 4 started from
states different from a freshly default-constructed instance — so they are
not "run against a fresh hasher instance". -/
theorem c9_counterexample :
    (digestTest countingHasher countingHasher.default [7] [7]).1 = none
    ∧ stateAtHalving countingHasher countingHasher.default [7]
        ≠ countingHasher.default
    ∧ stateAtByteByByte countingHasher countingHasher.default [7]
        ≠ countingHasher.default := by
  refine ⟨?_, ?_, ?_⟩ <;> decide

/-- C9 (amended). `digest_test` threads one shared hasher through all four
strategies: strategy 3 starts from the state finalisation of strategy 2
left behind, strategy 4 from the state finalisation of strategy 3 left
behind (first two conjuncts, by construction); only when the
implementation's finalisation resets to the default state do strategies 3
and 4 start from a state equal to a freshly default-constructed instance. -/
theorem c9_shared_instance {S : Type} (impl : DevHasher S) (h : S)
    (input : List Nat)
    (hreset : ∀ s, (impl.result s).2 = impl.default) :
    stateAtHalving impl h input
        = (impl.result (impl.process
            (impl.result (impl.process h input)).2 input)).2
    ∧ stateAtByteByByte impl h input
        = (impl.result (halvingLoop impl.process input
            (stateAtHalving impl h input))).2
    ∧ stateAtHalving impl h input = impl.default
    ∧ stateAtByteByByte impl h input = impl.default :=
  ⟨rfl, rfl, hreset _, hreset _⟩

/-- Witness for `c9_shared_instance` with the resetting `listHasher`. -/
theorem c9_shared_instance_witness :
    stateAtHalving listHasher [] [7]
        = (listHasher.result (listHasher.process
            (listHasher.result (listHasher.process [] [7])).2 [7])).2
    ∧ stateAtByteByByte listHasher [] [7]
        = (listHasher.result (halvingLoop listHasher.process [7]
            (stateAtHalving listHasher [] [7]))).2
    ∧ stateAtHalving listHasher [] [7] = listHasher.default
    ∧ stateAtByteByByte listHasher [] [7] = listHasher.default :=
  c9_shared_instance listHasher [] [7] (fun _ => rfl)

end DigestSpec
